import Mathlib

/-!
# Verification of the pyGSTi iterative GST engine specification

A shallow embedding, over `ℚ`, of the parts of pyGSTi exercised by the
tutorial sources: the 1-qubit `std1Q_XYI` explicit model, the custom
time-dependent idle operator `MyTimeDependentIdle` defined in the
time-dependent-GST tutorial, the "map" (state-propagation) forward
simulator, the gauge-transformation machinery, and the iterative fitting
driver (`do_long_sequence_gst`), the damped Gauss-Newton loop and the
goodness-of-fit reporting it performs.

Matrices act on the vectorized (Pauli-transfer) density-operator space of a
single qubit, so vectors have dimension 4 and operators are 4x4 real
matrices; we use exact rationals throughout (every number appearing in the
tutorial computations is rational once the two 1/sqrt(2) SPAM
normalizations are folded into a single 1/2 prefactor on probabilities).
-/

namespace PyGSTi

/-- Vectorized density-operator space of one qubit: dimension 4. -/
abbrev Vec4 := Fin 4 → ℚ

/-- Dense superoperator: a 4x4 rational matrix. -/
abbrev Mat4 := Fin 4 → Fin 4 → ℚ

/-- Matrix-vector product (the "map" simulator's basic step). -/
def matVec (M : Mat4) (v : Vec4) : Vec4 := fun i => ∑ j, M i j * v j

/-- Matrix-matrix product (the "matrix" strategy's basic step). -/
def matMul (A B : Mat4) : Mat4 := fun i k => ∑ j, A i j * B j k

/-- Inner product of two vectors (contraction of an effect with a state). -/
def dot (u v : Vec4) : ℚ := ∑ i, u i * v i

/-- Identity superoperator. -/
def idMat : Mat4 := fun i j => if i = j then 1 else 0

/-- Matrix transpose. -/
def transpose (M : Mat4) : Mat4 := fun i j => M j i

/-- Diagonal matrix with the given diagonal. -/
def diag4 (d : Vec4) : Mat4 := fun i j => if i = j then d i else 0

/-- Vector with the four given components. -/
def vec4 (a b c d : ℚ) : Vec4 := fun i =>
  if i = 0 then a else if i = 1 then b else if i = 2 then c else d

/-- Matrix with the four given rows. -/
def mat4 (r0 r1 r2 r3 : Vec4) : Mat4 := fun i =>
  if i = 0 then r0 else if i = 1 then r1 else if i = 2 then r2 else r3

/-- Dense Pauli-transfer matrix of `MyTimeDependentIdle` at time `t`
(from the tutorial's `set_time`): `a = 1 - min(depol_rate * t, 1)` and the
matrix is `diag(1, a, a, a)`. -/
def timeDepIdleMat (depolRate t : ℚ) : Mat4 :=
  diag4 (fun i => if i = 0 then 1 else 1 - min (depolRate * t) 1)

/-- Pauli-transfer matrix of the ideal idle gate `Gi`. -/
def giMat : Mat4 := idMat

/-- Pauli-transfer matrix of the ideal `X(pi/2)` gate `Gx` of `std1Q_XYI`. -/
def gxMat : Mat4 :=
  mat4 (vec4 1 0 0 0) (vec4 0 1 0 0) (vec4 0 0 0 (-1)) (vec4 0 0 1 0)

/-- Pauli-transfer matrix of the ideal `Y(pi/2)` gate `Gy` of `std1Q_XYI`. -/
def gyMat : Mat4 :=
  mat4 (vec4 1 0 0 0) (vec4 0 0 0 1) (vec4 0 0 1 0) (vec4 0 (-1) 0 0)

/-- Error taxonomy of the gauge optimizer (spec section 7): raised when an
operator's parameterization does not support gauge transformation. -/
inductive GaugeError where
  | notGaugeTransformable (msg : String)
deriving DecidableEq, Repr

/-- Message of the exception raised by `MyTimeDependentIdle.transform` in
the tutorial source. -/
def ngtDetail : String := "MyTimeDependentIdle cannot be transformed!"

/-- Model operator, as a closed tagged-variant interface (spec section 9):
either an ordinary dense (time-independent) superoperator, or the
tutorial's custom `MyTimeDependentIdle` with its depolarization rate. -/
inductive Op where
  | static (M : Mat4)
  | timeDepIdle (rate : ℚ)
deriving DecidableEq

/-- Dense matrix of an operator at time `t` (the tutorial's
`set_time t` followed by `todense`).  A static operator ignores `t`. -/
def Op.toDense : Op → ℚ → Mat4
  | .static M, _ => M
  | .timeDepIdle r, t => timeDepIdleMat r t

/-- Gauge action on one operator: replace it with `inv(S) * op * S`, as in
the tutorial's `transform` docstring.  `MyTimeDependentIdle.transform`
raises (`NotImplementedError` in the source; classified by the spec as a
`NotGaugeTransformableError`), so the time-dependent idle yields an error
instead of being silently skipped. -/
def Op.transform : Op → Mat4 → Mat4 → Except GaugeError Op
  | .static M, S, Sinv => .ok (.static (matMul (matMul Sinv M) S))
  | .timeDepIdle _, _, _ => .error (.notGaugeTransformable ngtDetail)

/-- Whether an operator is the non-gauge-transformable time-dependent idle. -/
def Op.isTimeDep : Op → Bool
  | .static _ => false
  | .timeDepIdle _ => true

/-- Operation labels of the `std1Q_XYI` model. -/
inductive GateName where
  | Gi
  | Gx
  | Gy
deriving DecidableEq

/-- Circuit layer label: an operation name together with its (relative)
duration, as in `pygsti.obj.Label('Gi', time=0.1)`; the default duration
is zero. -/
structure Label where
  name : GateName
  duration : ℚ
deriving DecidableEq

/-- Circuit: an ordered sequence of labels. -/
abbrev Circuit := List Label

/-- Explicit 1-qubit model: a preparation vector, a list of measurement
effect vectors, and one operator per operation label.  The two `1/sqrt 2`
normalizations of the preparation and effect vectors of `std1Q_XYI` are
folded into the rational prefactor `spamPrefactor` of `Model.probs`, so
`rho` and the effects here are the integer-valued `sqrt 2`-rescaled
vectors. -/
structure Model where
  rho : Vec4
  effects : List Vec4
  opGi : Op
  opGx : Op
  opGy : Op
deriving DecidableEq

/-- Operator stored under a given operation label. -/
def Model.op (m : Model) : GateName → Op
  | .Gi => m.opGi
  | .Gx => m.opGx
  | .Gy => m.opGy

/-- Product of the two `1/sqrt 2` SPAM normalizations. -/
def spamPrefactor : ℚ := 1 / 2

/-- Modelled from the spec: the state-propagation ("map") forward-simulation
strategy of section 4.1 (the simulator implementation itself is not among
the visible sources), with the time semantics stated in the
time-dependent-GST tutorial: layer `k` of a circuit started at time `t` is
evaluated at `t` plus the durations of the preceding labels, and is applied
to the running state by a matrix-vector product. -/
def propagate (m : Model) : ℚ → Circuit → Vec4 → Vec4
  | _, [], st => st
  | t, l :: rest, st => propagate m (t + l.duration) rest (matVec ((m.op l.name).toDense t) st)

/-- Modelled from the spec: `Model.probs` (section 4.1 contract; the
simulator implementation is not among the visible sources) — propagate the
preparation through the circuit starting at time `t`, then contract with
each measurement effect, returning one probability per outcome. -/
def Model.probs (m : Model) (c : Circuit) (t : ℚ) : List ℚ :=
  let w := propagate m t c m.rho
  m.effects.map (fun E => spamPrefactor * dot E w)

/-- Preparation vector of `std1Q_XYI` (times `sqrt 2`): `|0><0|` vectorized. -/
def rho0v : Vec4 := vec4 1 0 0 1

/-- Effect vector of outcome `0` of `std1Q_XYI` (times `sqrt 2`). -/
def e0v : Vec4 := vec4 1 0 0 1

/-- Effect vector of outcome `1` of `std1Q_XYI` (times `sqrt 2`). -/
def e1v : Vec4 := vec4 1 0 0 (-1)

/-- The tutorial's time-dependent model: the `std1Q_XYI` target model with
`mdl['Gi'] = MyTimeDependentIdle(rate)`. -/
def mdl (rate : ℚ) : Model :=
  { rho := rho0v
    effects := [e0v, e1v]
    opGi := .timeDepIdle rate
    opGx := .static gxMat
    opGy := .static gyMat }

/-- The ideal (static) `std1Q_XYI` target model. -/
def targetMdl : Model :=
  { rho := rho0v
    effects := [e0v, e1v]
    opGi := .static giMat
    opGx := .static gxMat
    opGy := .static gyMat }

/-- Ordered product of the per-layer dense matrices of a circuit started at
time `t`, each layer evaluated at `t` plus the accumulated durations of the
preceding labels — the "layer-composition" view, matching the tutorial's
reference computation `np.dot(E.T, np.dot(G2, np.dot(G1, rho)))`. -/
def circuitProduct (m : Model) : ℚ → Circuit → Mat4
  | _, [] => idMat
  | t, l :: rest => matMul (circuitProduct m (t + l.duration) rest) ((m.op l.name).toDense t)

/-- Naive reference probabilities from the tutorial: contract each effect
with the ordered product of the layer matrices applied to the preparation. -/
def refProbs (m : Model) (c : Circuit) (t : ℚ) : List ℚ :=
  m.effects.map (fun E => spamPrefactor * dot E (matVec (circuitProduct m t c) m.rho))

/-- Pointwise sum of a list of effect vectors. -/
def listTotal (l : List Vec4) : Vec4 :=
  l.foldr (fun E acc => fun i => E i + acc i) (fun _ => 0)

/-- First row of a superoperator is that of the identity; this is exactly
trace preservation in the Pauli-transfer representation, and it holds for
every operator matrix appearing in the tutorial's models. -/
def FirstRowUnit (M : Mat4) : Prop := ∀ j, M 0 j = if j = 0 then 1 else 0

/-- A model is well formed when every operator is trace preserving at every
time, the preparation has unit trace component, and its effects form a
complete measurement (their rescaled vectors sum to `(2, 0, 0, 0)`, i.e.
the two `1/sqrt 2`-normalized effects sum to the vectorized identity). -/
def WellFormed (m : Model) : Prop :=
  (∀ (g : GateName) (t : ℚ), FirstRowUnit ((m.op g).toDense t)) ∧
    m.rho 0 = 1 ∧ listTotal m.effects = vec4 2 0 0 0

/-- First component of a vector literal. -/
@[simp]
theorem vec4_app_zero (a b c d : ℚ) : vec4 a b c d 0 = a := rfl

/-- Second component of a vector literal. -/
@[simp]
theorem vec4_app_one (a b c d : ℚ) : vec4 a b c d 1 = b := rfl

/-- Third component of a vector literal. -/
@[simp]
theorem vec4_app_two (a b c d : ℚ) : vec4 a b c d 2 = c := rfl

/-- Fourth component of a vector literal. -/
@[simp]
theorem vec4_app_three (a b c d : ℚ) : vec4 a b c d 3 = d := rfl

/-- First row of a matrix literal. -/
@[simp]
theorem mat4_app_zero (r0 r1 r2 r3 : Vec4) : mat4 r0 r1 r2 r3 0 = r0 := rfl

/-- Second row of a matrix literal. -/
@[simp]
theorem mat4_app_one (r0 r1 r2 r3 : Vec4) : mat4 r0 r1 r2 r3 1 = r1 := rfl

/-- Third row of a matrix literal. -/
@[simp]
theorem mat4_app_two (r0 r1 r2 r3 : Vec4) : mat4 r0 r1 r2 r3 2 = r2 := rfl

/-- Fourth row of a matrix literal. -/
@[simp]
theorem mat4_app_three (r0 r1 r2 r3 : Vec4) : mat4 r0 r1 r2 r3 3 = r3 := rfl

/-- Matrix-vector product of a composite is iterated application. -/
theorem matVec_matMul (A B : Mat4) (v : Vec4) :
    matVec (matMul A B) v = matVec A (matVec B v) := by
  funext i
  simp only [matVec, matMul, Fin.sum_univ_four]
  ring

/-- The identity superoperator acts as the identity. -/
theorem matVec_id (v : Vec4) : matVec idMat v = v := by
  funext i
  fin_cases i <;> simp [matVec, idMat, Fin.sum_univ_four]

/-- Contraction against a transposed matrix moves it to the other side. -/
theorem dot_transpose (S : Mat4) (E v : Vec4) :
    dot (matVec (transpose S) E) v = dot E (matVec S v) := by
  simp only [dot, matVec, transpose, Fin.sum_univ_four]
  ring

/-- A trace-preserving layer leaves the trace component of the state alone. -/
theorem matVec_first {M : Mat4} (h : FirstRowUnit M) (v : Vec4) :
    matVec M v 0 = v 0 := by
  simp [matVec, Fin.sum_univ_four, h 0, h 1, h 2, h 3]

/-- State propagation preserves the trace component when all layers are
trace preserving. -/
theorem propagate_first {m : Model}
    (h : ∀ (g : GateName) (t : ℚ), FirstRowUnit ((m.op g).toDense t)) :
    ∀ (c : Circuit) (t : ℚ) (v : Vec4), propagate m t c v 0 = v 0 := by
  intro c
  induction c with
  | nil => intro t v; rfl
  | cons l rest ih =>
      intro t v
      simp only [propagate]
      rw [ih, matVec_first (h l.name t)]

/-- Summing the mapped contractions equals contracting the pointwise sum. -/
theorem sum_map_dot (w : Vec4) :
    ∀ l : List Vec4,
      (l.map (fun E => spamPrefactor * dot E w)).sum = spamPrefactor * dot (listTotal l) w := by
  intro l
  induction l with
  | nil =>
      simp [listTotal, dot, Fin.sum_univ_four]
  | cons E rest ih =>
      simp only [List.map_cons, List.sum_cons, ih, listTotal, List.foldr_cons]
      have hlin : dot (fun i => E i + (listTotal rest) i) w = dot E w + dot (listTotal rest) w := by
        simp only [dot, Fin.sum_univ_four]
        ring
      simp only [listTotal] at hlin
      rw [hlin]
      ring

/-- State propagation agrees with multiplying out the circuit product. -/
theorem propagate_eq_product (m : Model) :
    ∀ (c : Circuit) (t : ℚ) (v : Vec4),
      propagate m t c v = matVec (circuitProduct m t c) v := by
  intro c
  induction c with
  | nil => intro t v; simp [propagate, circuitProduct, matVec_id]
  | cons l rest ih =>
      intro t v
      simp only [propagate, circuitProduct, ih, matVec_matMul]

/-- C1 (functional correctness).  For every well-formed model and every
circuit, the forward simulator returns one probability per measurement
outcome and these outcome probabilities sum to exactly 1; in particular
the tutorial's time-dependent model is well formed for every
depolarization-rate parameter, so all of its circuit probabilities sum
to 1 (the tutorial instance `probs(('Gi','Gi'), time=0.1) = 0.905 + 0.095`
included). -/
theorem probabilities_sum_to_one :
    (∀ m : Model, WellFormed m → ∀ (c : Circuit) (t : ℚ), (m.probs c t).sum = 1) ∧
      (∀ rate : ℚ, WellFormed (mdl rate)) := by
  constructor
  · rintro m ⟨hrow, hrho, heff⟩ c t
    simp only [Model.probs]
    rw [sum_map_dot, heff]
    have hfirst := propagate_first hrow c t m.rho
    simp only [dot, Fin.sum_univ_four, vec4_app_zero, vec4_app_one, vec4_app_two,
      vec4_app_three, spamPrefactor]
    rw [hfirst, hrho]
    ring
  · intro rate
    refine ⟨?_, ?_, ?_⟩
    · intro g t j
      cases g <;> fin_cases j <;>
        norm_num [mdl, Model.op, Op.toDense, timeDepIdleMat, diag4, gxMat, gyMat, mat4, vec4,
          Fin.ext_iff]
    · rfl
    · funext i
      fin_cases i <;> norm_num [listTotal, mdl, e0v, e1v, vec4, Fin.ext_iff]

/-- C1 witness: the probabilities of the tutorial circuit `(Gi, Gi)` at
time 0.1 under the tutorial model sum to 1. -/
theorem probabilities_sum_to_one_witness :
    ((mdl 1).probs [⟨.Gi, 0⟩, ⟨.Gi, 0⟩] (1 / 10)).sum = 1 :=
  probabilities_sum_to_one.1 (mdl 1) (probabilities_sum_to_one.2 1) _ _

/-- C10 (refinement).  The map-strategy `Model.probs` coincides with the
naive reference computation that contracts each measurement effect with
the ordered product of the per-layer dense matrices (each evaluated at its
accumulated time) applied to the preparation; on the tutorial inputs this
yields `0.905`/`0.095` for `(Gi,Gi)` at start time 0.1 with zero-duration
labels, and `0.86`/`0.14` when each `Gi` label carries duration 0.1. -/
theorem probs_eq_reference :
    (∀ (m : Model) (c : Circuit) (t : ℚ), m.probs c t = refProbs m c t) ∧
      (mdl 1).probs [⟨.Gi, 0⟩, ⟨.Gi, 0⟩] (1 / 10) = [0.905, 0.095] ∧
      (mdl 1).probs [⟨.Gi, 1 / 10⟩, ⟨.Gi, 1 / 10⟩] (1 / 10) = [0.86, 0.14] := by
  refine ⟨?_, ?_, ?_⟩
  · intro m c t
    simp only [Model.probs, refProbs, propagate_eq_product]
  · simp [Model.probs, propagate, mdl, Model.op, Op.toDense, timeDepIdleMat, diag4,
      matVec, dot, Fin.sum_univ_four, rho0v, e0v, e1v, vec4, spamPrefactor]
    norm_num [min_def]
  · simp [Model.probs, propagate, mdl, Model.op, Op.toDense, timeDepIdleMat, diag4,
      matVec, dot, Fin.sum_univ_four, rho0v, e0v, e1v, vec4, spamPrefactor]
    norm_num [min_def]

/-- Gauge action on a whole model (the uniform conjugation of section 4.4):
each operator becomes `inv(S) * op * S`, the preparation becomes
`inv(S) * rho`, each effect `E` becomes `S^T * E` (so that `E^T` becomes
`E^T * S`).  The action fails with the first operator whose
parameterization does not support gauge transformation. -/
def Model.transform (m : Model) (S Sinv : Mat4) : Except GaugeError Model :=
  match Op.transform m.opGi S Sinv, Op.transform m.opGx S Sinv, Op.transform m.opGy S Sinv with
  | .ok gi, .ok gx, .ok gy =>
      .ok { rho := matVec Sinv m.rho
            effects := m.effects.map (matVec (transpose S))
            opGi := gi
            opGx := gx
            opGy := gy }
  | .error e, _, _ => .error e
  | .ok _, .error e, _ => .error e
  | .ok _, .ok _, .error e => .error e

/-- Effectful map over a list, stopping at the first error. -/
def mapExcept {α β ε : Type} (f : α → Except ε β) : List α → Except ε (List β)
  | [] => .ok []
  | a :: as =>
      match f a with
      | .error e => .error e
      | .ok b =>
          match mapExcept f as with
          | .error e => .error e
          | .ok bs => .ok (b :: bs)

/-- Element of a list minimizing a rational score, starting from a default. -/
def argminBy {α : Type} (f : α → ℚ) (a : α) : List α → α
  | [] => a
  | x :: xs => if f x < f a then argminBy f x xs else argminBy f a xs

/-- Squared Frobenius distance between two operator matrices. -/
def frob2 (A B : Mat4) : ℚ := ∑ i, ∑ j, (A i j - B i j) ^ 2

/-- Squared Euclidean distance between two SPAM vectors. -/
def vdist2 (u v : Vec4) : ℚ := ∑ i, (u i - v i) ^ 2

/-- Modelled from the spec: the gauge-optimization objective of
`gaugeopt_to_target` (section 4.4; the optimizer implementation is not
among the visible sources) — a weighted sum of squared element-wise
differences to the target, with separate weights for gate objects and
SPAM objects. -/
def weightedDistToTarget (m target : Model) (gateW spamW : ℚ) : ℚ :=
  gateW * (frob2 (m.opGi.toDense 0) (target.opGi.toDense 0) +
      frob2 (m.opGx.toDense 0) (target.opGx.toDense 0) +
      frob2 (m.opGy.toDense 0) (target.opGy.toDense 0)) +
    spamW * (vdist2 m.rho target.rho + (List.zipWith vdist2 m.effects target.effects).sum)

/-- Modelled from the spec: `gaugeopt_to_target` (section 4.4; not among
the visible sources) searches the group of gauge transformations for the
transformed model of least weighted distance to the target.  The
continuous search is modelled by a finite candidate list of
`(S, inv S)` pairs, the identity transform always being among the
candidates; a non-transformable operator makes the whole request fail. -/
def gaugeoptToTarget (m target : Model) (gateW spamW : ℚ)
    (cands : List (Mat4 × Mat4)) : Except GaugeError Model :=
  match mapExcept (fun p => m.transform p.1 p.2) ((idMat, idMat) :: cands) with
  | .error e => .error e
  | .ok [] => .ok m
  | .ok (m0 :: ms) => .ok (argminBy (fun x => weightedDistToTarget x target gateW spamW) m0 ms)

/-- The identity is a left unit for the matrix product. -/
theorem matMul_id_left (M : Mat4) : matMul idMat M = M := by
  funext i k
  simp [matMul, idMat, ite_mul, zero_mul, one_mul, Finset.sum_ite_eq]

/-- Product of two diagonal matrices. -/
theorem matMul_diag4 (d e : Vec4) :
    matMul (diag4 d) (diag4 e) = diag4 (fun i => d i * e i) := by
  funext i k
  simp only [matMul, diag4, ite_mul, zero_mul, mul_ite, mul_zero]
  rw [Finset.sum_ite_eq']
  by_cases h : i = k
  · subst h; simp
  · simp [h]

/-- The identity is idempotent under matrix product. -/
theorem matMul_id_id : matMul idMat idMat = idMat := matMul_id_left idMat

/-- Successful gauge action on a single operator conjugates its dense
matrix at every time. -/
theorem op_transform_toDense {o o' : Op} {S Sinv : Mat4}
    (h : Op.transform o S Sinv = .ok o') :
    ∀ t : ℚ, o'.toDense t = matMul (matMul Sinv (o.toDense t)) S := by
  intro t
  cases o with
  | static M =>
      simp only [Op.transform] at h
      cases h
      rfl
  | timeDepIdle r =>
      simp only [Op.transform] at h
      cases h

/-- Field description of a successful whole-model gauge action. -/
theorem model_transform_ok {m m' : Model} {S Sinv : Mat4}
    (h : m.transform S Sinv = .ok m') :
    m'.rho = matVec Sinv m.rho ∧
      m'.effects = m.effects.map (matVec (transpose S)) ∧
      ∀ (g : GateName) (t : ℚ),
        (m'.op g).toDense t = matMul (matMul Sinv ((m.op g).toDense t)) S := by
  unfold Model.transform at h
  rcases h1 : Op.transform m.opGi S Sinv with e1 | gi <;> rw [h1] at h
  · cases h
  rcases h2 : Op.transform m.opGx S Sinv with e2 | gx <;> rw [h2] at h
  · cases h
  rcases h3 : Op.transform m.opGy S Sinv with e3 | gy <;> rw [h3] at h
  · cases h
  cases h
  refine ⟨rfl, rfl, ?_⟩
  intro g t
  cases g with
  | Gi => exact op_transform_toDense h1 t
  | Gx => exact op_transform_toDense h2 t
  | Gy => exact op_transform_toDense h3 t

/-- Conjugated layers propagate conjugated states, when `S * Sinv = 1`. -/
theorem matVec_conj {S Sinv : Mat4} (hS : matMul S Sinv = idMat) (M : Mat4) (v : Vec4) :
    matVec (matMul (matMul Sinv M) S) (matVec Sinv v) = matVec Sinv (matVec M v) := by
  rw [matVec_matMul, matVec_matMul, ← matVec_matMul S Sinv v, hS, matVec_id]

/-- Gauge invariance of state propagation: propagating the transformed
preparation through the transformed model yields the transformed state. -/
theorem propagate_transform {m m' : Model} {S Sinv : Mat4}
    (hS : matMul S Sinv = idMat) (hok : m.transform S Sinv = .ok m') :
    ∀ (c : Circuit) (t : ℚ) (v : Vec4),
      propagate m' t c (matVec Sinv v) = matVec Sinv (propagate m t c v) := by
  obtain ⟨-, -, hops⟩ := model_transform_ok hok
  intro c
  induction c with
  | nil => intro t v; rfl
  | cons l rest ih =>
      intro t v
      simp only [propagate, hops l.name t, matVec_conj hS]
      exact ih (t + l.duration) (matVec ((m.op l.name).toDense t) v)

/-- Gauge invariance of the forward simulator: a valid gauge transform
leaves every outcome probability of every circuit unchanged. -/
theorem gauge_probs_eq {m m' : Model} {S Sinv : Mat4}
    (hS : matMul S Sinv = idMat) (hok : m.transform S Sinv = .ok m') :
    ∀ (c : Circuit) (t : ℚ), m'.probs c t = m.probs c t := by
  obtain ⟨hrho, heff, -⟩ := model_transform_ok hok
  intro c t
  simp only [Model.probs, hrho, heff, propagate_transform hS hok, List.map_map]
  apply List.map_congr_left
  intro E _
  simp only [Function.comp_apply, dot_transpose]
  rw [← matVec_matMul, hS, matVec_id]

/-- Every member of a successful effectful map comes from a list element. -/
theorem mapExcept_ok_mem {α β ε : Type} {f : α → Except ε β} :
    ∀ {l : List α} {bs : List β}, mapExcept f l = .ok bs →
      ∀ b ∈ bs, ∃ a ∈ l, f a = .ok b := by
  intro l
  induction l with
  | nil =>
      intro bs h b hb
      simp only [mapExcept] at h
      cases h
      cases hb
  | cons a as ih =>
      intro bs h b hb
      simp only [mapExcept] at h
      rcases h1 : f a with e | b0 <;> rw [h1] at h
      · cases h
      rcases h2 : mapExcept f as with e | bs0 <;> rw [h2] at h
      · cases h
      cases h
      rcases List.mem_cons.mp hb with rfl | hb
      · exact ⟨a, List.mem_cons_self a as, h1⟩
      · obtain ⟨a', ha', hfa⟩ := ih h2 b hb
        exact ⟨a', List.mem_cons_of_mem a ha', hfa⟩

/-- The minimizing element is the default or comes from the list. -/
theorem argminBy_mem {α : Type} (f : α → ℚ) :
    ∀ (l : List α) (a : α), argminBy f a l ∈ a :: l := by
  intro l
  induction l with
  | nil => intro a; exact List.mem_cons_self a []
  | cons x xs ih =>
      intro a
      simp only [argminBy]
      by_cases hlt : f x < f a
      · rw [if_pos hlt]
        rcases List.mem_cons.mp (ih x) with h | h
        · rw [h]; exact List.mem_cons_of_mem a (List.mem_cons_self x xs)
        · exact List.mem_cons_of_mem a (List.mem_cons_of_mem x h)
      · rw [if_neg hlt]
        rcases List.mem_cons.mp (ih a) with h | h
        · rw [h]; exact List.mem_cons_self a (x :: xs)
        · exact List.mem_cons_of_mem a (List.mem_cons_of_mem x h)

/-- C2 (algebraic/relational).  Applying a valid gauge transformation
uniformly to all of a model's operators leaves every predicted outcome
probability of every circuit unchanged, and gauge optimization — which
returns one of the gauge-transformed candidates — preserves the predicted
probabilities exactly. -/
theorem gauge_invariance :
    (∀ (m m' : Model) (S Sinv : Mat4), matMul S Sinv = idMat →
        m.transform S Sinv = .ok m' →
        ∀ (c : Circuit) (t : ℚ), m'.probs c t = m.probs c t) ∧
      ∀ (m target : Model) (gateW spamW : ℚ) (cands : List (Mat4 × Mat4)) (mOpt : Model),
        (∀ p ∈ cands, matMul p.1 p.2 = idMat) →
        gaugeoptToTarget m target gateW spamW cands = .ok mOpt →
        ∀ (c : Circuit) (t : ℚ), mOpt.probs c t = m.probs c t := by
  constructor
  · intro m m' S Sinv hS hok
    exact gauge_probs_eq hS hok
  · intro m target gateW spamW cands mOpt hcands hok c t
    unfold gaugeoptToTarget at hok
    rcases h1 : mapExcept (fun p => m.transform p.1 p.2) ((idMat, idMat) :: cands)
      with e | ms <;> rw [h1] at hok
    · cases hok
    rcases ms with - | ⟨m0, ms'⟩
    · cases hok
      rfl
    cases hok
    have hmem : argminBy (fun x => weightedDistToTarget x target gateW spamW) m0 ms' ∈
        m0 :: ms' := argminBy_mem _ ms' m0
    obtain ⟨p, hp, hpt⟩ := mapExcept_ok_mem h1 _ hmem
    have hpvalid : matMul p.1 p.2 = idMat := by
      rcases List.mem_cons.mp hp with hp | hp
      · rw [hp]; exact matMul_id_id
      · exact hcands p hp
    exact gauge_probs_eq hpvalid hpt c t

/-- Gauge-transform candidate used in the concrete witness: `diag(1,2,1,1)`. -/
def gaugeS : Mat4 := diag4 (vec4 1 2 1 1)

/-- Inverse of `gaugeS`. -/
def gaugeSinv : Mat4 := diag4 (vec4 1 (1 / 2) 1 1)

/-- The `std1Q_XYI` target model conjugated by `gaugeS`. -/
def targetMdlGauged : Model :=
  match targetMdl.transform gaugeS gaugeSinv with
  | .ok m' => m'
  | .error _ => targetMdl

/-- Result of the modelled gauge optimization of the target model onto
itself with only the identity candidate. -/
def targetMdlGo : Model :=
  match gaugeoptToTarget targetMdl targetMdl 1 (1 / 1000) [] with
  | .ok m' => m'
  | .error _ => targetMdl

/-- The witness transform pair is a valid gauge transform. -/
theorem gaugeS_mul_inv : matMul gaugeS gaugeSinv = idMat := by
  rw [gaugeS, gaugeSinv, matMul_diag4]
  funext i j
  by_cases h : i = j
  · subst h
    simp only [diag4, idMat, if_pos rfl]
    fin_cases i <;> norm_num [vec4, Fin.ext_iff]
  · simp [diag4, idMat, h]

/-- C2 witness: the concrete diagonal gauge transform of the target model,
and the modelled gauge optimization of the target model, both leave the
probabilities of the circuit `(Gx)` at time 0 unchanged. -/
theorem gauge_invariance_witness :
    targetMdlGauged.probs [⟨.Gx, 0⟩] 0 = targetMdl.probs [⟨.Gx, 0⟩] 0 ∧
      targetMdlGo.probs [⟨.Gx, 0⟩] 0 = targetMdl.probs [⟨.Gx, 0⟩] 0 :=
  ⟨gauge_invariance.1 targetMdl targetMdlGauged gaugeS gaugeSinv gaugeS_mul_inv rfl
      [⟨.Gx, 0⟩] 0,
    gauge_invariance.2 targetMdl targetMdl 1 (1 / 1000) [] targetMdlGo
      (by intro p hp; cases hp) rfl [⟨.Gx, 0⟩] 0⟩

/-- A model containing the tutorial's time-dependent idle cannot be gauge
transformed: the whole-model action reports the failure. -/
theorem transform_error_of_timeDep {m : Model} (S Sinv : Mat4)
    (h : m.opGi.isTimeDep = true ∨ m.opGx.isTimeDep = true ∨ m.opGy.isTimeDep = true) :
    m.transform S Sinv = .error (.notGaugeTransformable ngtDetail) := by
  unfold Model.transform
  cases hGi : m.opGi with
  | timeDepIdle r => simp [Op.transform]
  | static Mi =>
      cases hGx : m.opGx with
      | timeDepIdle r => simp [Op.transform]
      | static Mx =>
          cases hGy : m.opGy with
          | timeDepIdle r => simp [Op.transform]
          | static My =>
              rw [hGi, hGx, hGy] at h
              rcases h with h | h | h <;> simp [Op.isTimeDep] at h

/-- C9 (error handling).  For every model containing at least one operator
whose parameterization does not support gauge transformation (the
tutorial's `MyTimeDependentIdle`, whose `transform` raises), the
whole-model gauge action and every gauge-optimization request on that
model fail explicitly with a `NotGaugeTransformableError` carrying the
identifying message, and never return a silently-skipping success. -/
theorem gaugeopt_fails_not_transformable :
    ∀ (m : Model) (S Sinv : Mat4),
      (m.opGi.isTimeDep = true ∨ m.opGx.isTimeDep = true ∨ m.opGy.isTimeDep = true) →
      m.transform S Sinv = .error (.notGaugeTransformable ngtDetail) ∧
        ∀ (target : Model) (gateW spamW : ℚ) (cands : List (Mat4 × Mat4)),
          gaugeoptToTarget m target gateW spamW cands =
            .error (.notGaugeTransformable ngtDetail) := by
  intro m S Sinv h
  refine ⟨transform_error_of_timeDep S Sinv h, ?_⟩
  intro target gateW spamW cands
  unfold gaugeoptToTarget
  rw [show mapExcept (fun p => m.transform p.1 p.2) ((idMat, idMat) :: cands) =
      .error (.notGaugeTransformable ngtDetail) by
    simp only [mapExcept]
    rw [transform_error_of_timeDep idMat idMat h]]

/-- C9 witness: requesting the gauge action or gauge optimization on the
tutorial's time-dependent model fails with the explicit error. -/
theorem gaugeopt_fails_not_transformable_witness :
    (mdl 1).transform idMat idMat = .error (.notGaugeTransformable ngtDetail) ∧
      gaugeoptToTarget (mdl 1) targetMdl 1 (1 / 1000) [] =
        .error (.notGaugeTransformable ngtDetail) := by
  have h := gaugeopt_fails_not_transformable (mdl 1) idMat idMat (Or.inl rfl)
  exact ⟨h.1, h.2 targetMdl 1 (1 / 1000) []⟩

/-- Fit objective selected by the driver for a stage: the chi-squared
statistic or the Poisson log-likelihood. -/
inductive Objective where
  | chisq
  | logl
deriving DecidableEq

/-- Output bundle of one driver run: the optimizer invocations in order
(each with the objective it used and the model it produced), the model
finally reported, and the diagnostic warnings that were recorded. -/
structure GstResult (μ : Type) where
  stages : List (Objective × μ)
  finalModel : μ
  warnings : List String
deriving DecidableEq

/-- Warning recorded by the driver when the final ML refinement fails to
improve the log-likelihood (text from the tutorial's stderr log). -/
def mlgstFailWarning : String :=
  "WARNING: MLGST failed to improve logl: retaining chi2-objective estimate"

/-- Chi-squared sweep over a stage schedule: optimize each circuit set in
order under the chi-squared objective, seeding each stage from the
previous stage's result, and record every stage result. -/
def gstChisqStages {μ γ : Type} (optimize : Objective → μ → γ → μ) :
    μ → List γ → List (Objective × μ)
  | _, [] => []
  | m, cs :: rest =>
      (Objective.chisq, optimize .chisq m cs) ::
        gstChisqStages optimize (optimize .chisq m cs) rest

/-- Model produced by the chi-squared sweep (the last stage's result, or
the seed when the schedule is empty). -/
def chisqFold {μ γ : Type} (optimize : Objective → μ → γ → μ) : μ → List γ → μ
  | m, [] => m
  | m, cs :: rest => chisqFold optimize (optimize .chisq m cs) rest

/-- Modelled from the spec: the `do_long_sequence_gst` iterative fitting
driver (sections 4.2-4.3; the driver implementation is not among the
visible sources, its staging behavior is fixed by the tutorial logs).  It
optimizes every stage of the schedule under the chi-squared objective,
switches to the Poisson log-likelihood objective for one final refinement
of the last stage seeded from that stage's chi-squared result, keeps the
refined model only when it improves the log-likelihood, and otherwise
retains the chi-squared estimate while recording a warning diagnostic —
returning normally in both cases.  The optimizer and the log-likelihood
evaluation are abstract parameters. -/
def doLongSequenceGST {μ γ : Type} (optimize : Objective → μ → γ → μ)
    (logl : μ → ℚ) (seed : μ) (schedule : List γ) : GstResult μ :=
  match schedule.getLast? with
  | none => ⟨[], seed, []⟩
  | some lastCS =>
      let stages := gstChisqStages optimize seed schedule
      let mChi := chisqFold optimize seed schedule
      let mML := optimize .logl mChi lastCS
      if logl mChi < logl mML then
        ⟨stages ++ [(.logl, mML)], mML, []⟩
      else
        ⟨stages ++ [(.logl, mML)], mChi, [mlgstFailWarning]⟩

/-- Every entry of the chi-squared sweep uses the chi-squared objective. -/
theorem gstChisqStages_map_fst {μ γ : Type} (optimize : Objective → μ → γ → μ) :
    ∀ (schedule : List γ) (m : μ),
      (gstChisqStages optimize m schedule).map Prod.fst =
        List.replicate schedule.length .chisq := by
  intro schedule
  induction schedule with
  | nil => intro m; rfl
  | cons cs rest ih =>
      intro m
      simp only [gstChisqStages, List.map_cons, ih, List.length_cons, List.replicate_succ]

/-- C3 (functional correctness).  On every nonempty stage schedule the
driver optimizes each of stages 1..n under the chi-squared objective, and
only after the final stage additionally runs one Poisson log-likelihood
refinement, which continues from the chi-squared result of that final
stage. -/
theorem driver_objective_schedule :
    ∀ (μ γ : Type) (optimize : Objective → μ → γ → μ) (logl : μ → ℚ)
      (seed : μ) (schedule : List γ) (lastCS : γ),
      schedule.getLast? = some lastCS →
      (doLongSequenceGST optimize logl seed schedule).stages.map Prod.fst =
          List.replicate schedule.length .chisq ++ [.logl] ∧
        (doLongSequenceGST optimize logl seed schedule).stages.getLast? =
          some (.logl, optimize .logl (chisqFold optimize seed schedule) lastCS) := by
  intro μ γ optimize logl seed schedule lastCS hlast
  simp only [doLongSequenceGST, hlast]
  by_cases hc : logl (chisqFold optimize seed schedule) <
      logl (optimize .logl (chisqFold optimize seed schedule) lastCS)
  · rw [if_pos hc]
    exact ⟨by simp [gstChisqStages_map_fst], by simp⟩
  · rw [if_neg hc]
    exact ⟨by simp [gstChisqStages_map_fst], by simp⟩

/-- Driver demonstration instance for the witnesses: an optimizer that
returns its model argument unchanged. -/
def demoOpt : Objective → ℚ → ℕ → ℚ := fun _ m _ => m

/-- C3 witness: on the two-stage schedule `[1, 2]` the driver's optimizer
invocations are chi-squared, chi-squared, then one final log-likelihood
refinement seeded from the last chi-squared result. -/
theorem driver_objective_schedule_witness :
    (doLongSequenceGST demoOpt id 0 [1, 2]).stages.map Prod.fst =
        List.replicate 2 .chisq ++ [.logl] ∧
      (doLongSequenceGST demoOpt id 0 [1, 2]).stages.getLast? =
        some (.logl, demoOpt .logl (chisqFold demoOpt 0 [1, 2]) 2) :=
  driver_objective_schedule ℚ ℕ demoOpt id 0 [1, 2] 2 rfl

/-- C4 (error handling).  Whenever the final log-likelihood refinement
does not improve on the chi-squared result it started from, the driver
returns the chi-squared estimate as the stage result and records the
failure as a warning diagnostic — it returns normally (this embedding of
the driver is a total function) instead of raising. -/
theorem driver_retains_chisq_estimate :
    ∀ (μ γ : Type) (optimize : Objective → μ → γ → μ) (logl : μ → ℚ)
      (seed : μ) (schedule : List γ) (lastCS : γ),
      schedule.getLast? = some lastCS →
      logl (optimize .logl (chisqFold optimize seed schedule) lastCS) ≤
          logl (chisqFold optimize seed schedule) →
      (doLongSequenceGST optimize logl seed schedule).finalModel =
          chisqFold optimize seed schedule ∧
        (doLongSequenceGST optimize logl seed schedule).warnings = [mlgstFailWarning] := by
  intro μ γ optimize logl seed schedule lastCS hlast hfail
  simp only [doLongSequenceGST, hlast]
  rw [if_neg (not_lt.mpr hfail)]
  exact ⟨rfl, rfl⟩

/-- C4 witness: with an optimizer whose ML refinement does not improve
the log-likelihood, the driver retains the chi-squared result and records
the warning. -/
theorem driver_retains_chisq_estimate_witness :
    (doLongSequenceGST demoOpt id 0 [1, 2]).finalModel = chisqFold demoOpt 0 [1, 2] ∧
      (doLongSequenceGST demoOpt id 0 [1, 2]).warnings = [mlgstFailWarning] :=
  driver_retains_chisq_estimate ℚ ℕ demoOpt id 0 [1, 2] 2 rfl (le_refl _)

/-- Stop reason of the damped Gauss-Newton (Levenberg-Marquardt) outer
loop: either "Both actual and predicted relative reductions in the sum of
squares are at most <tol>" (the message in the tutorial logs), or the
maximum outer-iteration count was reached. -/
inductive LsqStopReason where
  | bothReductionsSmall
  | maxIterations
deriving DecidableEq

/-- Default convergence tolerance of the least-squares loop (the tutorial
logs show `1e-06` when no override is given, `0.01` under the
`tolerance: 1e-2` advanced option). -/
def defaultLsqTolerance : ℚ := 1 / 1000000

/-- Iterated optimizer state: `lmTraj step s i` is the state before outer
iteration `i`.  One `step` returns the new state together with the actual
and the model-predicted relative reduction in the sum of squares. -/
def lmTraj {σ : Type} (step : σ → σ × ℚ × ℚ) (s : σ) : ℕ → σ
  | 0 => s
  | n + 1 => (step (lmTraj step s n)).1

/-- Convergence test of outer iteration `i`: both the actual and the
predicted relative reduction produced by that iteration are at most the
tolerance. -/
def lmConverged {σ : Type} (step : σ → σ × ℚ × ℚ) (tol : ℚ) (s : σ) (i : ℕ) : Prop :=
  (step (lmTraj step s i)).2.1 ≤ tol ∧ (step (lmTraj step s i)).2.2 ≤ tol

instance lmConvergedDecidable {σ : Type} (step : σ → σ × ℚ × ℚ) (tol : ℚ) (s : σ) (i : ℕ) :
    Decidable (lmConverged step tol s i) := by
  unfold lmConverged
  infer_instance

/-- Modelled from the spec: the outer loop of the damped Gauss-Newton
optimizer (section 4.3; the `custom_leastsq` implementation is not among
the visible sources).  Each outer iteration performs one accepted update
and reports the actual and predicted relative reductions; the loop stops
as soon as both are at most the tolerance, or when the outer-iteration
budget `fuel` is exhausted, returning the final state, the stop reason
and the number of iterations performed. -/
def lmOuterLoop {σ : Type} (step : σ → σ × ℚ × ℚ) (tol : ℚ) :
    ℕ → σ → σ × LsqStopReason × ℕ
  | 0, s => (s, .maxIterations, 0)
  | k + 1, s =>
      let r := step s
      if r.2.1 ≤ tol ∧ r.2.2 ≤ tol then (r.1, .bothReductionsSmall, 1)
      else
        let rest := lmOuterLoop step tol k r.1
        (rest.1, rest.2.1, rest.2.2 + 1)

/-- The trajectory from the once-stepped state is the shifted trajectory. -/
theorem lmTraj_shift {σ : Type} (step : σ → σ × ℚ × ℚ) (s : σ) :
    ∀ i : ℕ, lmTraj step ((step s).1) i = lmTraj step s (i + 1) := by
  intro i
  induction i with
  | zero => rfl
  | succ n ih => simp only [lmTraj, ih]

/-- Convergence of the shifted trajectory. -/
theorem lmConverged_shift {σ : Type} (step : σ → σ × ℚ × ℚ) (tol : ℚ) (s : σ) (i : ℕ) :
    lmConverged step tol ((step s).1) i ↔ lmConverged step tol s (i + 1) := by
  simp only [lmConverged, lmTraj_shift]

/-- A convergence stop is reported only after at least one iteration. -/
theorem lm_count_pos {σ : Type} (step : σ → σ × ℚ × ℚ) (tol : ℚ) :
    ∀ (fuel : ℕ) (s : σ),
      (lmOuterLoop step tol fuel s).2.1 = .bothReductionsSmall →
      0 < (lmOuterLoop step tol fuel s).2.2 := by
  intro fuel
  induction fuel with
  | zero =>
      intro s h
      simp [lmOuterLoop] at h
  | succ k ih =>
      intro s h
      simp only [lmOuterLoop] at h ⊢
      by_cases hc : (step s).2.1 ≤ tol ∧ (step s).2.2 ≤ tol
      · rw [if_pos hc]
        exact Nat.one_pos
      · rw [if_neg hc]
        exact Nat.succ_pos _

/-- C5 (functional correctness).  The damped Gauss-Newton loop stops with
the "both reductions small" verdict exactly when some outer iteration
within the budget makes both the actual and the model-predicted relative
reduction in the sum of squares fall below the tolerance; it reports the
max-iteration verdict exactly when the budget is exhausted with no such
iteration, and a convergence stop after `n+1` iterations means iteration
`n` satisfied the test while no earlier iteration did.  The default
tolerance is `1e-6` (overridable per run, as in the tutorials). -/
theorem lm_termination :
    ∀ (σ : Type) (step : σ → σ × ℚ × ℚ) (tol : ℚ) (fuel : ℕ) (s : σ),
      ((lmOuterLoop step tol fuel s).2.1 = .bothReductionsSmall ↔
          ∃ i < fuel, lmConverged step tol s i) ∧
        ((lmOuterLoop step tol fuel s).2.1 = .maxIterations →
          (lmOuterLoop step tol fuel s).2.2 = fuel ∧
            ∀ i < fuel, ¬ lmConverged step tol s i) ∧
        (∀ n : ℕ, (lmOuterLoop step tol fuel s).2 = (.bothReductionsSmall, n + 1) →
          lmConverged step tol s n ∧ ∀ i < n, ¬ lmConverged step tol s i) ∧
        defaultLsqTolerance = 1 / 1000000 := by
  intro σ step tol fuel
  induction fuel with
  | zero =>
      intro s
      refine ⟨by simp [lmOuterLoop], ?_, ?_, rfl⟩
      · intro _
        exact ⟨rfl, fun i hi => absurd hi (Nat.not_lt_zero i)⟩
      · intro n h
        simp [lmOuterLoop, Prod.ext_iff] at h
  | succ k ih =>
      intro s
      by_cases hc : (step s).2.1 ≤ tol ∧ (step s).2.2 ≤ tol
      · have hstop : lmOuterLoop step tol (k + 1) s = ((step s).1, .bothReductionsSmall, 1) := by
          simp only [lmOuterLoop]
          rw [if_pos hc]
        refine ⟨?_, ?_, ?_, rfl⟩
        · rw [hstop]
          exact ⟨fun _ => ⟨0, Nat.succ_pos k, hc⟩, fun _ => rfl⟩
        · rw [hstop]
          intro h
          simp at h
        · rw [hstop]
          intro n h
          have hn : n = 0 := by
            have := congrArg Prod.snd h
            simpa using this.symm
          subst hn
          exact ⟨hc, fun i hi => absurd hi (Nat.not_lt_zero i)⟩
      · have hstep : lmOuterLoop step tol (k + 1) s =
            ((lmOuterLoop step tol k (step s).1).1,
              (lmOuterLoop step tol k (step s).1).2.1,
              (lmOuterLoop step tol k (step s).1).2.2 + 1) := by
          simp only [lmOuterLoop]
          rw [if_neg hc]
        obtain ⟨ih1, ih2, ih3, -⟩ := ih (step s).1
        refine ⟨?_, ?_, ?_, rfl⟩
        · rw [hstep]
          constructor
          · intro h
            obtain ⟨i, hik, hci⟩ := ih1.mp h
            exact ⟨i + 1, Nat.succ_lt_succ hik, (lmConverged_shift step tol s i).mp hci⟩
          · rintro ⟨i, hik, hci⟩
            cases i with
            | zero => exact absurd hci hc
            | succ j =>
                exact ih1.mpr ⟨j, Nat.lt_of_succ_lt_succ hik,
                  (lmConverged_shift step tol s j).mpr hci⟩
        · rw [hstep]
          intro h
          obtain ⟨hcount, hnone⟩ := ih2 h
          refine ⟨by rw [hcount], ?_⟩
          intro i hik
          cases i with
          | zero => exact hc
          | succ j =>
              intro hcj
              exact hnone j (Nat.lt_of_succ_lt_succ hik)
                ((lmConverged_shift step tol s j).mpr hcj)
        · rw [hstep]
          intro n h
          have h1 : (lmOuterLoop step tol k (step s).1).2.1 = .bothReductionsSmall :=
            congrArg Prod.fst h
          have h2 : (lmOuterLoop step tol k (step s).1).2.2 = n := by
            have := congrArg Prod.snd h
            simpa using this
          cases n with
          | zero =>
              have := lm_count_pos step tol k (step s).1 h1
              rw [h2] at this
              exact absurd this (lt_irrefl 0)
          | succ m =>
              have hpair : (lmOuterLoop step tol k (step s).1).2 =
                  (.bothReductionsSmall, m + 1) := by
                rw [Prod.ext_iff]
                exact ⟨h1, h2⟩
              obtain ⟨hcm, hprev⟩ := ih3 m hpair
              refine ⟨(lmConverged_shift step tol s m).mp hcm, ?_⟩
              intro i hi
              cases i with
              | zero => exact hc
              | succ j =>
                  intro hcj
                  exact hprev j (Nat.lt_of_succ_lt_succ hi)
                    ((lmConverged_shift step tol s j).mpr hcj)

/-- Optimizer-step demonstration instance for the C5 witness: from
iteration 2 on, both reported reductions drop to zero. -/
def demoStep : ℕ → ℕ × ℚ × ℚ :=
  fun n => (n + 1, if 2 ≤ n then 0 else 1, if 2 ≤ n then 0 else 1)

/-- C5 witness: with a tolerance of 0 and a budget of 5 iterations the
demonstration loop stops with the "both reductions small" verdict, because
iteration 2 satisfies the convergence test. -/
theorem lm_termination_witness :
    (lmOuterLoop demoStep 0 5 0).2.1 = .bothReductionsSmall ∧ lmConverged demoStep 0 0 2 :=
  ⟨(lm_termination ℕ demoStep 0 5 0).1.mpr ⟨2, by decide, by decide⟩, by decide⟩

/-- Modelled from the spec: the accept/reject inner step of the damped
Gauss-Newton optimizer (section 4.3; not among the visible sources).  A
trial update at the current damping is accepted iff it reduces the
objective, upon which the damping is decreased; otherwise the damping is
increased and the trial is retried, up to `retry` attempts. -/
def lmTry {σ : Type} (trial : σ → ℚ → σ) (fObj : σ → ℚ) (kUp kDown : ℚ) :
    ℕ → σ → ℚ → Option (σ × ℚ)
  | 0, _, _ => none
  | k + 1, s, mu =>
      let s' := trial s mu
      if fObj s' < fObj s then some (s', mu * kDown)
      else lmTry trial fObj kUp kDown k s (mu * kUp)

/-- Objective values at the accepted Gauss-Newton steps of one stage, in
order: each outer round makes accept/reject trials via `lmTry` and
records the objective of the accepted update; the stage ends when the
retry budget produces no acceptable step (optimizer stall) or after
`outer` rounds. -/
def lmAccepted {σ : Type} (trial : σ → ℚ → σ) (fObj : σ → ℚ) (kUp kDown : ℚ)
    (retry : ℕ) : ℕ → σ → ℚ → List ℚ
  | 0, _, _ => []
  | n + 1, s, mu =>
      match lmTry trial fObj kUp kDown retry s mu with
      | none => []
      | some (s', mu') => fObj s' :: lmAccepted trial fObj kUp kDown retry n s' mu'

/-- An accepted trial strictly reduces the objective. -/
theorem lmTry_decreases {σ : Type} {trial : σ → ℚ → σ} {fObj : σ → ℚ} {kUp kDown : ℚ} :
    ∀ {k : ℕ} {s : σ} {mu : ℚ} {s' : σ} {mu' : ℚ},
      lmTry trial fObj kUp kDown k s mu = some (s', mu') → fObj s' < fObj s := by
  intro k
  induction k with
  | zero =>
      intro s mu s' mu' h
      simp [lmTry] at h
  | succ j ih =>
      intro s mu s' mu' h
      simp only [lmTry] at h
      by_cases hlt : fObj (trial s mu) < fObj s
      · rw [if_pos hlt] at h
        cases h
        exact hlt
      · rw [if_neg hlt] at h
        exact ih h

/-- C6 (invariant).  Within a single fitting stage the sequence of
objective values at accepted Gauss-Newton steps is non-increasing: the
objective value after each accepted step is at most the value before it
(rejected trials only increase the damping and are retried, never
recorded). -/
theorem accepted_objectives_monotone :
    ∀ (σ : Type) (trial : σ → ℚ → σ) (fObj : σ → ℚ) (kUp kDown : ℚ)
      (retry outer : ℕ) (s : σ) (mu : ℚ),
      List.Chain' (fun a b => b ≤ a)
        (fObj s :: lmAccepted trial fObj kUp kDown retry outer s mu) := by
  intro σ trial fObj kUp kDown retry outer
  induction outer with
  | zero =>
      intro s mu
      simp [lmAccepted]
  | succ n ih =>
      intro s mu
      rcases h : lmTry trial fObj kUp kDown retry s mu with - | ⟨s', mu'⟩
      · simp [lmAccepted, h]
      · simp only [lmAccepted, h]
        exact List.Chain'.cons (le_of_lt (lmTry_decreases h)) (ih s' mu')

/-- Number of independent count constraints of a circuit set: each circuit
with `k` outcomes and a fixed total count contributes `k - 1`. -/
def nDataParams (outcomesPerCircuit : List ℕ) : ℕ :=
  (outcomesPerCircuit.map (fun k => k - 1)).sum

/-- Modelled from the spec: the per-stage fit summary printed by the
driver ("N data params - M model params = expected mean of N-M;
p-value = ...", section 4.3 terminal state; the reporting code is not
among the visible sources).  The p-value is obtained by applying the
chi-squared survival function, an abstract parameter here, at the
degrees of freedom. -/
structure FitSummary where
  nData : ℕ
  nParams : ℕ
  expectedMean : ℕ
  pValue : ℚ
deriving DecidableEq

/-- Build the end-of-stage summary from the data-parameter and free
model-parameter counts and the fit statistic. -/
def mkFitSummary (chi2sf : ℕ → ℚ → ℚ) (stat : ℚ) (nData nParams : ℕ) : FitSummary :=
  { nData := nData
    nParams := nParams
    expectedMean := nData - nParams
    pValue := chi2sf (nData - nParams) stat }

/-- Modelled from the spec: number of free (non-gauge) parameters of the
fully parameterized `std1Q_XYI` model, as reported in the tutorial logs
(44): three 16-parameter gates plus a 4-parameter preparation and two
4-parameter effects, minus the 16-dimensional gauge freedom. -/
def nModelParamsFullXYI : ℕ := (3 * 16 + 4 + 2 * 4) - 16

/-- Modelled from the spec: number of free (non-gauge) parameters of the
TP-constrained `std1Q_XYI` model, as reported in the tutorial logs (31):
three 12-parameter TP gates plus a 3-parameter TP preparation and a
4-parameter TP-POVM, minus the 12-dimensional TP gauge freedom. -/
def nModelParamsTPXYI : ℕ := (3 * 12 + 3 + 4) - 12

/-- C7 (functional correctness).  The end-of-stage report computes the
expected mean (degrees of freedom) as the number of independent count
constraints minus the number of free model parameters, and its p-value by
applying the asymptotic chi-squared survival function at those degrees of
freedom; on the tutorial's first stage, 92 two-outcome circuits give 92
data parameters, the fully parameterized model has 44 free parameters
(expected mean 48), and the TP-constrained model has 31. -/
theorem stage_dof_report :
    ∀ (chi2sf : ℕ → ℚ → ℚ) (stat : ℚ) (nData nParams : ℕ),
      (mkFitSummary chi2sf stat nData nParams).expectedMean = nData - nParams ∧
        (mkFitSummary chi2sf stat nData nParams).pValue = chi2sf (nData - nParams) stat ∧
        nDataParams (List.replicate 92 2) = 92 ∧
        (mkFitSummary chi2sf stat 92 nModelParamsFullXYI).expectedMean = 48 ∧
        nModelParamsFullXYI = 44 ∧ nModelParamsTPXYI = 31 := by
  intro chi2sf stat nData nParams
  refine ⟨rfl, rfl, by decide, rfl, by decide, by decide⟩

/-- Modelled from the spec and the `UserWarning` visible in the leakage
tutorial log ("Max-model params (305) <= model params (360)!  Using
k == 1."): the goodness-of-fit degrees of freedom used by the Estimate.
When the data-parameter count is at most the model-parameter count the
under-determined condition is surfaced as a warning and `k = 1` is used;
otherwise `k = nData - nParams` with no warning. -/
def gofDegreesOfFreedom (nData nParams : ℕ) : ℕ × List String :=
  if nData ≤ nParams then
    (1, ["Max-model params <= model params!  Using k == 1."])
  else (nData - nParams, [])

/-- C8 (error handling).  Whenever a stage has at least as many free model
parameters as independent data constraints, the fit does not silently
proceed as if well-determined: the degrees of freedom are floored at 1 and
a warning diagnostic is emitted (the computation still returns, so the fit
proceeds with the condition surfaced rather than raising or ignoring it). -/
theorem underdetermined_fit_flagged :
    ∀ nData nParams : ℕ, nData ≤ nParams →
      (gofDegreesOfFreedom nData nParams).1 = 1 ∧
        (gofDegreesOfFreedom nData nParams).2 ≠ [] := by
  intro nData nParams h
  simp [gofDegreesOfFreedom, h]

/-- C8 witness: the leakage tutorial's stage with 305 data parameters and
360 model parameters is flagged and floored to `k = 1`. -/
theorem underdetermined_fit_flagged_witness :
    (gofDegreesOfFreedom 305 360).1 = 1 ∧ (gofDegreesOfFreedom 305 360).2 ≠ [] :=
  underdetermined_fit_flagged 305 360 (by decide)

end PyGSTi
